import Mathlib

/-!
Verification development for the `fsm_auto` repository: a LUT-RAM-driven
sequencer FSM with a Python behavioral model and a generated SystemVerilog
realization.

The definitions below are shallow embeddings of:
* `src/test/sequencer_fsm_sim.py` (`SequencerFSMSim`): the cycle-stepped
  Python reference model (`SimState`, `load_lut_entry`, `simReset`, `simStep`);
* `src/test/sim_fsm.py` (`get_lut_ram_initial_data_sv_format`) and
  `src/generate_fsm.py` (`FsmSimulator.step` write mode,
  `_initialize_lut_ram_model`, `write_lut_ram`): the microcode word codec and
  the LUT-RAM table model;
* the synchronous register-transfer logic emitted by
  `src/test/generate_fsm.py` (`generate_systemverilog_fsm_with_lut_ram`):
  the structural engine (`svStep`), with the bit-slice layer factored through
  the codec definitions.

Machine integers are modeled as `Nat` with explicit masking where the Python
code masks (`& ((1 << width) - 1)`).
-/

namespace FsmAuto

/-! ## Embedding of `src/test/sequencer_fsm_sim.py` (`SequencerFSMSim`) -/

/-- One YAML `lut_entries` item as held in `self.lut_entries` (a dict from
parsed address to the raw entry).  `next_state` is a state *name*, resolved
against `state_encoding_map` only when the entry is loaded.  `next_address`
is the optional explicit override read by `entry.get('next_address', ...)`. -/
structure RawEntry where
  next_state : String
  repeat_count : Nat
  data_length : Nat
  eof : Nat
  sof : Nat
  next_address : Option Nat
deriving DecidableEq, Repr

/-- Configuration captured in `SequencerFSMSim.__init__`:
`state_encoding_map` (name to encoding), `address_width`, and the
entry dictionary. -/
structure SimConfig where
  stateEnc : List (String × Nat)
  addressWidth : Nat
  entries : Nat → Option RawEntry

/-- Dictionary lookup in `state_encoding_map`; `none` models Python's
`KeyError` on a missing key. -/
def lookupEnc (m : List (String × Nat)) (name : String) : Option Nat :=
  (m.find? (fun p => p.1 == name)).map (fun p => p.2)

/-- The simulator's register file: the `self.*` fields assigned by
`reset`, `load_lut_entry` and `step`.  The `busy` flag is omitted: `reset`
sets it to `False` and nothing ever reads or changes it. -/
structure SimState where
  current_state : Nat
  lut_addr : Nat
  repeat_count : Nat
  data_length : Nat
  eof : Nat
  sof : Nat
  next_address : Nat
  next_state : Nat
  data_length_timer : Nat
  active_repeat_count : Nat
  exit_signal_latched : Bool
  exit_signal : Bool
  sequence_done : Bool
  cycle : Nat
deriving DecidableEq, Repr

/-- `SequencerFSMSim.load_lut_entry(addr)`: load the entry at `addr` (or the
default when the dict has no such key) into the command registers.  The
default branch goes to `RST` with `repeat_count = 1`, `data_length = 1`;
a present entry resolves its state name through `state_encoding_map`
(`none` models the `KeyError` raised on an unknown name) and defaults
`next_address` to `(addr + 1) & ((1 << address_width) - 1)`. -/
def load_lut_entry (cfg : SimConfig) (addr : Nat) (s : SimState) : Option SimState :=
  match cfg.entries addr with
  | none =>
    match lookupEnc cfg.stateEnc "RST" with
    | none => none
    | some rst =>
      some { s with next_state := rst, repeat_count := 1, data_length := 1,
                    eof := 0, sof := 0, next_address := 0 }
  | some e =>
    match lookupEnc cfg.stateEnc e.next_state with
    | none => none
    | some enc =>
      some { s with next_state := enc, repeat_count := e.repeat_count,
                    data_length := e.data_length, eof := e.eof, sof := e.sof,
                    next_address :=
                      e.next_address.getD ((addr + 1) &&& (2 ^ cfg.addressWidth - 1)) }

/-- `SequencerFSMSim.reset()`: fixed register values, then `load_lut_entry(0)`,
then timers initialized from the freshly loaded registers and the exit latch
cleared. -/
def simReset (cfg : SimConfig) : Option SimState :=
  match lookupEnc cfg.stateEnc "RST" with
  | none => none
  | some rst =>
    let s0 : SimState :=
      { current_state := rst, lut_addr := 0, repeat_count := 0, data_length := 0,
        eof := 0, sof := 0, next_address := 0, next_state := 0,
        data_length_timer := 0, active_repeat_count := 0,
        exit_signal_latched := false, exit_signal := false,
        sequence_done := false, cycle := 0 }
    match load_lut_entry cfg 0 s0 with
    | none => none
    | some s1 =>
      some { s1 with data_length_timer := s1.data_length,
                     active_repeat_count := s1.repeat_count,
                     exit_signal_latched := false, exit_signal := false }

/-- `SequencerFSMSim.step(reset_i, exit_signal)`: one simulated clock cycle,
translated branch for branch. -/
def simStep (cfg : SimConfig) (reset_i exit_signal : Bool) (s : SimState) : Option SimState :=
  let s := { s with cycle := s.cycle + 1, sequence_done := false }
  let s := { s with exit_signal_latched := if exit_signal then true else s.exit_signal_latched,
                    exit_signal := exit_signal }
  if reset_i then simReset cfg
  else
    match lookupEnc cfg.stateEnc "RST" with
    | none => none
    | some rst =>
      if s.current_state = rst then
        -- RST state: on reset deassert, enter first command
        match load_lut_entry cfg 0 { s with lut_addr := 0 } with
        | none => none
        | some s1 =>
          some { s1 with current_state := s1.next_state,
                         data_length_timer := s1.data_length,
                         active_repeat_count := s1.repeat_count,
                         lut_addr := s1.next_address }
      else
        match lookupEnc cfg.stateEnc "IDLE" with
        | none => none
        | some idle =>
          if s.current_state ≠ idle then
            -- Command execution state (not IDLE)
            let t := if 0 < s.data_length_timer then s.data_length_timer - 1
                     else s.data_length_timer
            if t = 0 then
              if 0 < s.active_repeat_count then
                some { s with data_length_timer := s.data_length,
                              active_repeat_count := s.active_repeat_count - 1 }
              else
                some { s with data_length_timer := t, current_state := idle }
            else
              some { s with data_length_timer := t }
          else
            -- IDLE state: always load next command
            if s.eof = 1 ∧ s.exit_signal_latched = true then
              let s2 := { s with lut_addr := (s.lut_addr + 1) &&& (2 ^ cfg.addressWidth - 1),
                                 sequence_done := true, exit_signal_latched := false }
              (load_lut_entry cfg s2.lut_addr s2).map fun s3 =>
                { s3 with current_state := s3.next_state,
                          data_length_timer := s3.data_length,
                          active_repeat_count := s3.repeat_count }
            else
              let s2 := { s with lut_addr := s.next_address, sequence_done := false }
              (load_lut_entry cfg s2.lut_addr s2).map fun s3 =>
                { s3 with current_state := s3.next_state,
                          data_length_timer := s3.data_length,
                          active_repeat_count := s3.repeat_count }

/-- Iterate `step` with `reset_i = 0` and `exit_signal = False`. -/
def simIter (cfg : SimConfig) : Nat → SimState → Option SimState
  | 0, s => some s
  | k + 1, s => (simStep cfg false false s).bind (simIter cfg k)

/-- Run `step` over an explicit list of `(reset_i, exit_signal)` inputs. -/
def simRun (cfg : SimConfig) : List (Bool × Bool) → SimState → Option SimState
  | [], s => some s
  | (r, e) :: rest, s => (simStep cfg r e s).bind (simRun cfg rest)

/-! ## Microcode word codec

`pack_word` embeds the packing loop of
`FsmSimulator.get_lut_ram_initial_data_sv_format` in `src/test/sim_fsm.py`
(lines 196-208): parameter fields are OR-ed in at increasing bit positions
iterating `reversed(param_fields)`, then the state encoding is placed above
them.  `unpack_fwd` embeds the extraction loop of `FsmSimulator.step`'s
LUT-write mode in `src/generate_fsm.py` (lines 113-128): fields are read at
increasing bit positions iterating `param_fields` in declaration order.
`unpack_rev` embeds the `always_comb` slice assignments emitted by
`src/test/generate_fsm.py` (lines 257-266), which iterate
`reversed(param_fields)` like the packer. -/

/-- Packing loop state: fold `acc |= value << pos; pos += width` over a list
of `(value, width)` pairs, returning the final `(acc, pos)`. -/
def packFold : List (Nat × Nat) → Nat → Nat → Nat × Nat
  | [], acc, pos => (acc, pos)
  | (v, w) :: rest, acc, pos => packFold rest (acc ||| (v <<< pos)) (pos + w)

/-- Pack a state encoding together with parameter fields given in
declaration order: the parameters are folded over the reversed field list,
and `next_state_encoding` lands in the most-significant bits. -/
def pack_word (enc : Nat) (fields : List (Nat × Nat)) : Nat :=
  let p := packFold fields.reverse 0 0
  (enc <<< p.2) ||| p.1

/-- Extraction loop: read fields of the given widths at increasing bit
positions, `(word >> pos) & ((1 << w) - 1)`. -/
def unpackFold : List Nat → Nat → Nat → List Nat
  | [], _, _ => []
  | w :: rest, word, pos => ((word >>> pos) &&& ((1 <<< w) - 1)) :: unpackFold rest word (pos + w)

/-- Field extraction in declaration order (the `FsmSimulator.step` write-mode
unpack in `src/generate_fsm.py`). -/
def unpack_fwd (widths : List Nat) (word : Nat) : List Nat :=
  unpackFold widths word 0

/-- State-encoding extraction: `write_data_int >> sum(widths)`. -/
def unpack_enc (widths : List Nat) (word : Nat) : Nat :=
  word >>> (widths.foldl (· + ·) 0)

/-- Field extraction iterating `reversed(param_fields)` (the generated
`always_comb` block of `src/test/generate_fsm.py`), presented as a list in
declaration order. -/
def unpack_rev (widths : List Nat) (word : Nat) : List Nat :=
  (unpackFold widths.reverse word 0).reverse

/-- Total width `sum(field widths)` as the Python sources compute it. -/
def sumW (l : List Nat) : Nat := l.foldl (· + ·) 0

/-! ## LUT-RAM table models -/

/-- One stored entry of the `FsmSimulator` LUT-RAM model: a state *name*
plus the four configured parameter fields (each `entry.get(name, 0)`). -/
structure RamEntry where
  next_state : String
  repeat_count : Nat
  data_length : Nat
  eof : Nat
  sof : Nat
deriving DecidableEq, Repr

/-- The default fill of `FsmSimulator._initialize_lut_ram_model`
(`src/generate_fsm.py` line 55): `next_state = 'IDLE'`, all params zero. -/
def defaultRamEntry : RamEntry :=
  { next_state := "IDLE", repeat_count := 0, data_length := 0, eof := 0, sof := 0 }

/-- `FsmSimulator._initialize_lut_ram_model` (`src/generate_fsm.py` lines
50-69): start from the default fill, then store each supplied `(address,
entry)` pair whose address is `< 2 ** address_width`; out-of-range addresses
are only logged and skipped. -/
def lutRamStore (addressWidth : Nat) (ram : Nat → RamEntry) :
    List (Nat × RamEntry) → (Nat → RamEntry)
  | [] => ram
  | (addr, e) :: rest =>
    lutRamStore addressWidth
      (if addr < 2 ^ addressWidth then fun a => if a = addr then e else ram a else ram) rest

/-- Build the LUT-RAM model from the supplied entry list (loop order of the
source: later duplicates overwrite earlier ones). -/
def initLutRam (addressWidth : Nat) (entries : List (Nat × RamEntry)) : Nat → RamEntry :=
  lutRamStore addressWidth (fun _ => defaultRamEntry) entries

/-- `FsmSimulator.write_lut_ram` (`src/generate_fsm.py` lines 215-235):
reject addresses `≥ 2 ** address_width`; replace a `next_state` name that is
not a known state by `'IDLE'` (with a warning); store the validated entry. -/
def write_lut_ram (states : List String) (addressWidth : Nat)
    (ram : Nat → RamEntry) (address : Nat) (e : RamEntry) : Nat → RamEntry :=
  if address < 2 ^ addressWidth then
    let name := if e.next_state ∈ states then e.next_state else "IDLE"
    fun a => if a = address then { e with next_state := name } else ram a
  else ram

/-- The entry dictionary built in `SequencerFSMSim.__init__`
(`src/test/sequencer_fsm_sim.py` line 28): a comprehension over
`lut_entries` keyed by the parsed address, with **no** range check. -/
def entriesDictStore (d : Nat → Option RawEntry) :
    List (Nat × RawEntry) → (Nat → Option RawEntry)
  | [] => d
  | (addr, e) :: rest =>
    entriesDictStore (fun a => if a = addr then some e else d a) rest

/-- The dictionary `{parse_address(e['address']): e for e in lut_entries}`. -/
def simEntriesDict (l : List (Nat × RawEntry)) : Nat → Option RawEntry :=
  entriesDictStore (fun _ => none) l

/-! ## The structural (generated SystemVerilog) engine

Embedding of the synchronous register logic emitted by
`generate_systemverilog_fsm_with_lut_ram` in `src/test/generate_fsm.py`
(lines 158-232).  The LUT RAM is modeled as a map from address to the
decoded fields of the stored word; the `always_comb` slice extraction that
recovers these fields from the packed word is `unpack_rev` above.  `eof` is
the truth value of the 1-bit `current_eof` slice. -/

/-- Decoded fields of one stored LUT word, as consumed by the generated
register logic (`next_state_from_lut`, `current_repeat_count`,
`current_data_length`, `current_eof`). -/
structure MEntry where
  next_state : Nat
  repeat_count : Nat
  data_length : Nat
  eof : Bool
deriving DecidableEq, Repr

/-- Static configuration of the generated module: state encodings for the
`RST` and `IDLE` localparams, the encodings of the command states that
received a `case` arm (those with a known completion signal), the LUT
address width, and the RAM contents. -/
structure SVConfig where
  rstEnc : Nat
  idleEnc : Nat
  cmdStates : List Nat
  addressWidth : Nat
  ram : Nat → MEntry

/-- Register file of the generated module: `current_state_reg`,
`lut_addr_reg`, `data_length_timer`, `active_repeat_count`. -/
structure SVState where
  current_state : Nat
  lut_addr : Nat
  data_length_timer : Nat
  active_repeat_count : Nat
deriving DecidableEq, Repr

/-- One clock edge of the generated `always_ff` state/address block.
`comp c` is the value of the completion signal wired to command state `c`
(e.g. `internal_task_done` for `FLUSH`); `exit_signal` is `exit_signal_i`.
Addresses computed by `+ 1` wrap modulo the table depth (the source indexes
`lut_ram[lut_addr_reg + 1]`, whose four-state behavior at the wrap boundary
is not modeled).  The separate configuration-mode block that auto-increments
`lut_addr_reg` while in `RST` with `lut_wen_i`/`lut_rden_i` asserted is not
modeled; no claim refers to it. -/
def svStep (cfg : SVConfig) (reset_i exit_signal : Bool) (comp : Nat → Bool)
    (s : SVState) : SVState :=
  if reset_i then
    { current_state := cfg.rstEnc, lut_addr := 0,
      data_length_timer := 0, active_repeat_count := 0 }
  else if s.current_state = cfg.rstEnc then
    { current_state := (cfg.ram 0).next_state, lut_addr := 0,
      data_length_timer := (cfg.ram 0).data_length,
      active_repeat_count := (cfg.ram 0).repeat_count }
  else if s.current_state = cfg.idleEnc then
    if 0 < s.active_repeat_count then
      { s with active_repeat_count := s.active_repeat_count - 1,
               current_state := (cfg.ram s.lut_addr).next_state,
               data_length_timer := (cfg.ram s.lut_addr).data_length }
    else if (cfg.ram s.lut_addr).repeat_count = 0 ∧ exit_signal = true then
      let a := (s.lut_addr + 1) % 2 ^ cfg.addressWidth
      { current_state := (cfg.ram a).next_state, lut_addr := a,
        data_length_timer := (cfg.ram a).data_length,
        active_repeat_count := (cfg.ram a).repeat_count }
    else if (cfg.ram s.lut_addr).eof = true then
      { current_state := (cfg.ram 0).next_state, lut_addr := 0,
        data_length_timer := (cfg.ram 0).data_length,
        active_repeat_count := (cfg.ram 0).repeat_count }
    else
      let a := (s.lut_addr + 1) % 2 ^ cfg.addressWidth
      { current_state := (cfg.ram a).next_state, lut_addr := a,
        data_length_timer := (cfg.ram a).data_length,
        active_repeat_count := (cfg.ram a).repeat_count }
  else if s.current_state ∈ cfg.cmdStates then
    if 0 < s.data_length_timer then
      { s with data_length_timer := s.data_length_timer - 1 }
    else if comp s.current_state then
      { s with current_state := cfg.idleEnc }
    else s
  else
    { current_state := cfg.rstEnc, lut_addr := 0,
      data_length_timer := 0, active_repeat_count := 0 }

/-- The combinational `sequence_done_o` output (line 356 of the generator):
asserted while in `IDLE` with the current entry's `eof` set, no active
repeats, and the current entry's `repeat_count` zero. -/
def svDone (cfg : SVConfig) (s : SVState) : Bool :=
  s.current_state = cfg.idleEnc ∧ (cfg.ram s.lut_addr).eof = true ∧
    s.active_repeat_count = 0 ∧ (cfg.ram s.lut_addr).repeat_count = 0

/-- Iterate `svStep` with `reset_i = 0`, `exit_signal_i = 0`. -/
def svIter (cfg : SVConfig) (comp : Nat → Bool) : Nat → SVState → SVState
  | 0, s => s
  | k + 1, s => svIter cfg comp k (svStep cfg false false comp s)

/-- Whether `load_lut_entry` at this address can resolve (no `KeyError`):
either the address is unsupplied and `RST` is a known state, or the supplied
entry's state name is known. -/
def loadResolves (cfg : SimConfig) (addr : Nat) : Bool :=
  match cfg.entries addr with
  | none => (lookupEnc cfg.stateEnc "RST").isSome
  | some e => (lookupEnc cfg.stateEnc e.next_state).isSome

/-! ## Concrete fixtures

Small configurations used by the counterexamples and witnesses.  State
encodings follow the shipped `fsm_config.yaml` naming: `RST`, `IDLE` and one
command state `FLUSH`. -/

/-- A zeroed register file used as the pre-state of single calls. -/
def s0fix : SimState :=
  { current_state := 0, lut_addr := 0, repeat_count := 0, data_length := 0,
    eof := 0, sof := 0, next_address := 0, next_state := 0,
    data_length_timer := 0, active_repeat_count := 0,
    exit_signal_latched := false, exit_signal := false,
    sequence_done := false, cycle := 0 }

/-- Two entries with `repeat_count = 0`, `eof = 0`, no `next_address`
override: the engine walks straight through them. -/
def cfgA : SimConfig :=
  { stateEnc := [("RST", 0), ("IDLE", 1), ("FLUSH", 2)], addressWidth := 2,
    entries := fun a =>
      if a = 0 then some ⟨"FLUSH", 0, 1, 0, 0, none⟩
      else if a = 1 then some ⟨"FLUSH", 0, 1, 0, 0, none⟩
      else none }

/-- A single finite-repeat entry (`repeat_count = 1`) carrying `eof = 1`. -/
def cfgB : SimConfig :=
  { stateEnc := [("RST", 0), ("IDLE", 1), ("FLUSH", 2)], addressWidth := 2,
    entries := fun a => if a = 0 then some ⟨"FLUSH", 1, 1, 1, 0, none⟩ else none }

/-- A single entry with `data_length = 0` (timer starts expired). -/
def cfgC : SimConfig :=
  { stateEnc := [("RST", 0), ("IDLE", 1), ("FLUSH", 2)], addressWidth := 2,
    entries := fun a => if a = 0 then some ⟨"FLUSH", 0, 0, 0, 0, none⟩ else none }

/-- A single entry with `data_length = 5`. -/
def cfgD : SimConfig :=
  { stateEnc := [("RST", 0), ("IDLE", 1), ("FLUSH", 2)], addressWidth := 2,
    entries := fun a => if a = 0 then some ⟨"FLUSH", 0, 5, 0, 0, none⟩ else none }

/-- An entry whose state name does not resolve in the state table. -/
def cfgE : SimConfig :=
  { stateEnc := [("RST", 0), ("IDLE", 1), ("FLUSH", 2)], addressWidth := 2,
    entries := fun a => if a = 0 then some ⟨"NOPE", 0, 1, 0, 0, none⟩ else none }

/-- A wait-until-exit entry in the simulator's idiom: `eof = 1` with an
explicit `next_address` override pointing back at its own address. -/
def cfgF : SimConfig :=
  { stateEnc := [("RST", 0), ("IDLE", 1), ("FLUSH", 2)], addressWidth := 2,
    entries := fun a =>
      if a = 0 then some ⟨"FLUSH", 0, 1, 1, 0, some 0⟩
      else if a = 1 then some ⟨"FLUSH", 0, 1, 0, 0, none⟩
      else none }

/-- A sample stored entry for the table-model counterexamples. -/
def eFix : RamEntry :=
  { next_state := "FLUSH", repeat_count := 2, data_length := 7, eof := 0, sof := 1 }

/-- A sample raw entry for the entry-dictionary counterexample. -/
def rawFix : RawEntry := ⟨"FLUSH", 2, 7, 0, 1, none⟩

/-- The Idle-resolution pre-state reached after the wait entry of `cfgF`
completes: registers loaded from entry 0 (`eof = 1`, `next_address = 0`). -/
def sWaitFix : SimState :=
  { s0fix with current_state := 1, eof := 1, next_address := 0,
               next_state := 2, data_length := 1 }

/-- Register-file shape while the engine executes the command loaded from
entry `a`: in command state `c` with the command registers holding that
entry's `data_length = L`, `eof = 0` and `next_address = na`, timer at `t`
and `active_repeat_count` at `m`. -/
def InCmd (c a L na t m : Nat) (s : SimState) : Prop :=
  s.current_state = c ∧ s.lut_addr = a ∧ s.data_length = L ∧ s.eof = 0 ∧
  s.next_address = na ∧ s.data_length_timer = t ∧ s.active_repeat_count = m

/-- A register file freshly loaded from a `repeat_count = 2`,
`data_length = 1` view of entry 0 of `cfgA`. -/
def sCmdA : SimState :=
  { s0fix with current_state := 2, data_length := 1, next_address := 1, next_state := 2,
               data_length_timer := 1, active_repeat_count := 2, repeat_count := 2 }

/-- The register file produced by `reset()` over `cfgA`. -/
def sResetA : SimState :=
  { s0fix with data_length := 1, next_address := 1, next_state := 2, data_length_timer := 1 }

/-- The register file produced by `reset()` over `cfgD`. -/
def sResetD : SimState :=
  { s0fix with next_state := 2, data_length := 5, next_address := 1, data_length_timer := 5 }

/-- A stored entry whose state name is unknown to the state table. -/
def eBad : RamEntry :=
  { next_state := "NOPE", repeat_count := 3, data_length := 4, eof := 0, sof := 0 }

/-- The state-name list of the shipped configuration. -/
def statesFix : List String :=
  ["IDLE", "RST", "PANEL_STABLE", "BACK_BIAS", "FLUSH", "EXPOSE_TIME", "READOUT", "AED_DETECT"]

/-- A structural-engine configuration with one command state (encoding 2)
whose entry 0 has `data_length = 1`. -/
def cfgSV : SVConfig :=
  { rstEnc := 0, idleEnc := 1, cmdStates := [2, 3], addressWidth := 2,
    ram := fun a =>
      if a = 0 then ⟨2, 0, 1, false⟩
      else if a = 1 then ⟨3, 1, 1, true⟩
      else ⟨1, 0, 0, false⟩ }

/-- A three-command structural configuration mirroring the spec's scenario:
`FLUSH` (`repeat 0`), `EXPOSE` (`repeat 2`), `READOUT` (`repeat 0`,
`eof = 1`), each with `data_length = 1`. -/
def cfgSV2 : SVConfig :=
  { rstEnc := 0, idleEnc := 1, cmdStates := [2, 3, 4], addressWidth := 2,
    ram := fun a =>
      if a = 0 then ⟨2, 0, 1, false⟩
      else if a = 1 then ⟨3, 2, 1, false⟩
      else if a = 2 then ⟨4, 0, 1, true⟩
      else ⟨1, 0, 0, false⟩ }

/-- Completion signals all asserted (tasks finish as soon as the timer does). -/
def compT : Nat → Bool := fun _ => true

/-- The structural register file right after a reset cycle. -/
def sv0 : SVState :=
  { current_state := 0, lut_addr := 0, data_length_timer := 0, active_repeat_count := 0 }

/-- A structural register file sitting in command state 2 with the timer
expired, pointing at entry 0. -/
def svCmdFix : SVState :=
  { current_state := 2, lut_addr := 0, data_length_timer := 0, active_repeat_count := 0 }

/-- A structural register file resolving in `IDLE` at the `eof` entry of
`cfgSV2` with repeats exhausted. -/
def svIdleFix : SVState :=
  { current_state := 1, lut_addr := 2, data_length_timer := 0, active_repeat_count := 0 }

/-! ## Helper lemmas -/

/-- Masking with a low-bit mask is reduction mod a power of two. -/
theorem and_two_pow_sub_one (x w : Nat) : x &&& (2 ^ w - 1) = x % 2 ^ w := by
  apply Nat.eq_of_testBit_eq
  intro i
  rw [Nat.testBit_land, Nat.testBit_two_pow_sub_one, Nat.testBit_mod_two_pow]
  rw [Bool.and_comm]

/-- A step with `reset_i` asserted is exactly `reset()`, whatever the
current state and exit input. -/
theorem simStep_reset (cfg : SimConfig) (e : Bool) (s : SimState) :
    simStep cfg true e s = simReset cfg := rfl

/-- If the entry at `addr` resolves, `load_lut_entry` succeeds from any
pre-state. -/
theorem load_exists {cfg : SimConfig} {addr : Nat} (h : loadResolves cfg addr = true)
    (s : SimState) : ∃ s', load_lut_entry cfg addr s = some s' := by
  unfold loadResolves at h
  cases hE : cfg.entries addr with
  | none =>
    rw [hE] at h
    dsimp only at h
    obtain ⟨rst, hR⟩ := Option.isSome_iff_exists.mp h
    exact ⟨_, by unfold load_lut_entry; rw [hE]; dsimp only; rw [hR]⟩
  | some entry =>
    rw [hE] at h
    dsimp only at h
    obtain ⟨enc, hR⟩ := Option.isSome_iff_exists.mp h
    exact ⟨_, by unfold load_lut_entry; rw [hE]; dsimp only; rw [hR]⟩

/-- `load_lut_entry` only writes the command registers; all other fields of
the register file are untouched. -/
theorem load_preserves {cfg : SimConfig} {addr : Nat} {s s' : SimState}
    (h : load_lut_entry cfg addr s = some s') :
    s'.current_state = s.current_state ∧ s'.lut_addr = s.lut_addr ∧
    s'.data_length_timer = s.data_length_timer ∧
    s'.active_repeat_count = s.active_repeat_count ∧
    s'.exit_signal_latched = s.exit_signal_latched ∧
    s'.exit_signal = s.exit_signal ∧
    s'.sequence_done = s.sequence_done ∧ s'.cycle = s.cycle := by
  unfold load_lut_entry at h
  cases hE : cfg.entries addr with
  | none =>
    rw [hE] at h
    dsimp only at h
    cases hR : lookupEnc cfg.stateEnc "RST" with
    | none => rw [hR] at h; simp at h
    | some rst => rw [hR] at h; cases h; simp
  | some entry =>
    rw [hE] at h
    dsimp only at h
    cases hR : lookupEnc cfg.stateEnc entry.next_state with
    | none => rw [hR] at h; simp at h
    | some enc => rw [hR] at h; cases h; simp

/-- Idle resolution when the loaded `eof` register is 1 and the exit latch is
(or becomes, via this cycle's `exit_signal`) set: advance `lut_addr` by one
(mod depth), pulse `sequence_done`, clear the latch, and enter the state of
the freshly loaded entry. -/
theorem simStep_idle_latched {cfg : SimConfig} {s : SimState} {rst idle : Nat} {e : Bool}
    (hr : lookupEnc cfg.stateEnc "RST" = some rst)
    (hi : lookupEnc cfg.stateEnc "IDLE" = some idle)
    (hcur : s.current_state = idle) (hne : idle ≠ rst)
    (heof : s.eof = 1)
    (hlatch : e = true ∨ s.exit_signal_latched = true)
    (hload : loadResolves cfg ((s.lut_addr + 1) % 2 ^ cfg.addressWidth) = true) :
    ∃ s', simStep cfg false e s = some s' ∧
      s'.lut_addr = (s.lut_addr + 1) % 2 ^ cfg.addressWidth ∧
      s'.sequence_done = true ∧ s'.exit_signal_latched = false ∧
      s'.current_state = s'.next_state := by
  unfold simStep
  simp only [if_neg (Bool.false_ne_true), Bool.false_eq_true, if_false]
  rw [hr]
  have h1 : ¬ (s.current_state = rst) := by rw [hcur]; exact hne
  simp only [h1, if_false, if_neg h1]
  rw [hi]
  dsimp only
  have hl : (if e = true then true else s.exit_signal_latched) = true := by
    rcases hlatch with h | h
    · rw [h]; rfl
    · cases e <;> simp [h]
  rw [if_neg (by simp [hcur]), if_pos ⟨heof, hl⟩, and_two_pow_sub_one]
  obtain ⟨s3, h3⟩ := load_exists hload
    { s with lut_addr := (s.lut_addr + 1) % 2 ^ cfg.addressWidth,
             sequence_done := true, exit_signal_latched := false,
             exit_signal := e, cycle := s.cycle + 1 }
  rw [h3]
  obtain ⟨p1, p2, p3, p4, p5, p6, p7, p8⟩ := load_preserves h3
  exact ⟨_, rfl, by simp [p2], by simp [p7], by simp [p5], rfl⟩

/-- Idle resolution in every other case: `lut_addr` becomes the
`next_address` register of the entry loaded previously, `sequence_done`
stays low, and the engine enters the state of the freshly loaded entry with
its timers initialized. -/
theorem simStep_idle_normal {cfg : SimConfig} {s : SimState} {rst idle : Nat} {e : Bool}
    (hr : lookupEnc cfg.stateEnc "RST" = some rst)
    (hi : lookupEnc cfg.stateEnc "IDLE" = some idle)
    (hcur : s.current_state = idle) (hne : idle ≠ rst)
    (hcond : s.eof ≠ 1 ∨ (e = false ∧ s.exit_signal_latched = false))
    (hload : loadResolves cfg s.next_address = true) :
    ∃ s', simStep cfg false e s = some s' ∧
      s'.lut_addr = s.next_address ∧ s'.sequence_done = false ∧
      s'.current_state = s'.next_state ∧
      s'.data_length_timer = s'.data_length ∧
      s'.active_repeat_count = s'.repeat_count := by
  unfold simStep
  simp only [if_neg (Bool.false_ne_true), Bool.false_eq_true, if_false]
  rw [hr]
  have h1 : ¬ (s.current_state = rst) := by rw [hcur]; exact hne
  simp only [h1, if_false, if_neg h1]
  rw [hi]
  dsimp only
  have hc : ¬ (s.eof = 1 ∧ (if e = true then true else s.exit_signal_latched) = true) := by
    rcases hcond with h | ⟨he, hl⟩
    · exact fun hx => h hx.1
    · subst he; simp [hl]
  rw [if_neg (by simp [hcur]), if_neg hc]
  obtain ⟨s3, h3⟩ := load_exists hload
    { s with lut_addr := s.next_address, sequence_done := false,
             exit_signal_latched := if e = true then true else s.exit_signal_latched,
             exit_signal := e, cycle := s.cycle + 1 }
  rw [h3]
  obtain ⟨p1, p2, p3, p4, p5, p6, p7, p8⟩ := load_preserves h3
  exact ⟨_, rfl, by simp [p2], by simp [p7], rfl, rfl, rfl⟩

/-! ## Claim C1 -/

/-- C1 (counterexample): with `repeat_count = 0` the engine is claimed never
to advance `lut_addr` absent `exit_signal`.  In `cfgA` the entry at address 1
has `repeat_count = 0` and `eof = 0`; running the engine from reset with
`exit_signal` never asserted, `lut_addr` is 1 after 4 steps and 2 after the
Idle resolution at step 5: the engine advanced with no exit signal. -/
theorem c1_repeat_zero_advances_cex :
    (cfgA.entries 1).map RawEntry.repeat_count = some 0 ∧
    (cfgA.entries 1).map RawEntry.eof = some 0 ∧
    ((simReset cfgA).bind (simIter cfgA 4)).map SimState.lut_addr = some 1 ∧
    ((simReset cfgA).bind (simIter cfgA 5)).map SimState.lut_addr = some 2 := by
  decide

/-- C1 (amended): in `SequencerFSMSim` the wait-until-exit mode is keyed on
the loaded entry's `eof = 1` together with a `next_address` override equal to
the entry's own address, not on `repeat_count = 0`.  For such an entry,
resolving in Idle with the exit latch clear and no exit input leaves
`lut_addr` unchanged and re-enters the same command without pulsing
`sequence_done`; on any Idle cycle whose exit latch is set (or whose
`exit_signal` input is asserted), `lut_addr` advances by exactly one (mod
the table depth), `sequence_done` pulses, and the latch is cleared. -/
theorem c1_wait_mode_eof_self_loop {cfg : SimConfig} {s : SimState} {rst idle : Nat}
    (hr : lookupEnc cfg.stateEnc "RST" = some rst)
    (hi : lookupEnc cfg.stateEnc "IDLE" = some idle)
    (hcur : s.current_state = idle) (hne : idle ≠ rst)
    (heof : s.eof = 1) (hself : s.next_address = s.lut_addr)
    (hl1 : loadResolves cfg s.lut_addr = true)
    (hl2 : loadResolves cfg ((s.lut_addr + 1) % 2 ^ cfg.addressWidth) = true) :
    (s.exit_signal_latched = false →
      ∃ s', simStep cfg false false s = some s' ∧
        s'.lut_addr = s.lut_addr ∧ s'.sequence_done = false ∧
        s'.current_state = s'.next_state) ∧
    (∀ e : Bool, (e = true ∨ s.exit_signal_latched = true) →
      ∃ s', simStep cfg false e s = some s' ∧
        s'.lut_addr = (s.lut_addr + 1) % 2 ^ cfg.addressWidth ∧
        s'.sequence_done = true ∧ s'.exit_signal_latched = false) := by
  constructor
  · intro hlf
    have hl1' : loadResolves cfg s.next_address = true := by rw [hself]; exact hl1
    obtain ⟨s', h1, h2, h3, h4, h5, h6⟩ :=
      simStep_idle_normal hr hi hcur hne (Or.inr ⟨rfl, hlf⟩) hl1'
    exact ⟨s', h1, by rw [h2, hself], h3, h4⟩
  · intro e he
    obtain ⟨s', h1, h2, h3, h4, h5⟩ := simStep_idle_latched hr hi hcur hne heof he hl2
    exact ⟨s', h1, h2, h3, h4⟩

/-- C1 (witness): the amended theorem instantiated on `cfgF`, whose entry 0
(`eof = 1`, `next_address = 0`) is the wait entry, from the Idle state that
follows its first completion. -/
theorem c1_wait_mode_eof_self_loop_witness :
    (lookupEnc cfgF.stateEnc "RST" = some 0 ∧
     lookupEnc cfgF.stateEnc "IDLE" = some 1 ∧
     loadResolves cfgF 0 = true ∧ loadResolves cfgF 1 = true ∧
     sWaitFix.eof = 1 ∧ sWaitFix.next_address = sWaitFix.lut_addr) ∧
    ((sWaitFix.exit_signal_latched = false →
      ∃ s', simStep cfgF false false sWaitFix = some s' ∧
        s'.lut_addr = sWaitFix.lut_addr ∧ s'.sequence_done = false ∧
        s'.current_state = s'.next_state) ∧
    (∀ e : Bool, (e = true ∨ sWaitFix.exit_signal_latched = true) →
      ∃ s', simStep cfgF false e sWaitFix = some s' ∧
        s'.lut_addr = (sWaitFix.lut_addr + 1) % 2 ^ cfgF.addressWidth ∧
        s'.sequence_done = true ∧ s'.exit_signal_latched = false)) :=
  ⟨⟨by decide, by decide, by decide, by decide, by decide, by decide⟩,
    @c1_wait_mode_eof_self_loop cfgF sWaitFix 0 1 (by decide) (by decide) (by decide)
      (by decide) (by decide) (by decide) (by decide) (by decide)⟩

/-! ## Claim C2 (counterexample half; the amended statement is proved on the
structural engine further below) -/

/-- C2 (counterexample): in `cfgB`, entry 0 carries `eof = 1` and
`repeat_count = 1`.  After its repeats are exhausted the engine sits in Idle
(state 1) at `lut_addr = 1` with the `eof` register 1 and no repeat branch
applicable, yet the next step neither pulses `sequence_done` nor resets
`lut_addr` to 0: `SequencerFSMSim` moves to `next_address` with
`sequence_done = false`. -/
theorem c2_eof_no_done_no_wrap_cex :
    ((simReset cfgB).bind (simIter cfgB 3)).map
      (fun s => (s.current_state, s.lut_addr, s.eof, s.active_repeat_count, s.repeat_count)) =
      some (1, 1, 1, 0, 1) ∧
    ((simReset cfgB).bind (simIter cfgB 4)).map
      (fun s => (s.lut_addr, s.sequence_done)) = some (1, false) := by
  decide

/-! ## Claim C4 (counterexample half) -/

/-- C4 (counterexample): `SequencerFSMSim.step` consults no completion
predicate at all.  In `cfgC` (entry 0 has `data_length = 0`) the engine is in
the `FLUSH` command state (encoding 2) with `data_length_timer = 0` after one
step, and the very next step transitions to `IDLE` (encoding 1): it
auto-advances purely because the timer is expired. -/
theorem c4_sim_auto_advance_cex :
    ((simReset cfgC).bind (simIter cfgC 1)).map
      (fun s => (s.current_state, s.data_length_timer)) = some (2, 0) ∧
    ((simReset cfgC).bind (simIter cfgC 2)).map SimState.current_state = some 1 := by
  decide

/-! ## Claim C3 (counterexample half) -/

/-- C3 (counterexample): the cited pack (`sim_fsm.py`, reversed field order)
and unpack (`src/generate_fsm.py` write mode, declaration order) are not
mutually inverse.  With the shipped layout `[repeat_count:8, data_length:16,
eof:1, sof:1]` and in-width fields `repeat_count = 1`, rest 0, the round
trip returns `repeat_count = 0`, `data_length = 1024`. -/
theorem c3_roundtrip_cex :
    unpack_fwd [8, 16, 1, 1] (pack_word 0 [(1, 8), (0, 16), (0, 1), (0, 1)]) =
      [0, 1024, 0, 0] ∧
    ([0, 1024, 0, 0] : List Nat) ≠ [1, 0, 0, 0] := by
  decide

/-! ## Claim C6 -/

/-- C6 (counterexample): the default word of `SequencerFSMSim.load_lut_entry`
at an unsupplied address has `repeat_count = 1` and `data_length = 1`, not
zero as claimed. -/
theorem c6_default_numeric_fields_cex :
    (load_lut_entry cfgA 3 s0fix).map (fun s => (s.repeat_count, s.data_length)) =
      some (1, 1) := by
  decide

/-- Unfolding equation for one store step. -/
theorem lutRamStore_cons (aw : Nat) (ram : Nat → RamEntry) (addr : Nat)
    (e : RamEntry) (t : List (Nat × RamEntry)) :
    lutRamStore aw ram ((addr, e) :: t) =
      lutRamStore aw
        (if addr < 2 ^ aw then fun a => if a = addr then e else ram a else ram) t := rfl

/-- Helper: an address never mentioned by the supplied entry list keeps
whatever the accumulated RAM holds there. -/
theorem lutRamStore_unsupplied (aw : Nat) :
    ∀ (l : List (Nat × RamEntry)) (ram : Nat → RamEntry) (a : Nat),
      (∀ p ∈ l, p.1 ≠ a) → lutRamStore aw ram l a = ram a := by
  intro l
  induction l with
  | nil => intro ram a _; rfl
  | cons p t ih =>
    intro ram a h
    obtain ⟨addr, e⟩ := p
    have haddr : addr ≠ a := h (addr, e) (List.mem_cons_self _ _)
    have ht : ∀ p ∈ t, p.1 ≠ a := fun q hq => h q (List.mem_cons_of_mem _ hq)
    unfold lutRamStore
    rw [ih _ a ht]
    by_cases hw : addr < 2 ^ aw
    · rw [if_pos hw]
      exact if_neg (Ne.symm haddr)
    · rw [if_neg hw]

/-- C6 (amended): addresses not supplied at load time read as defaults, but
the two models disagree beyond the acknowledged `RST`/`IDLE` inconsistency:
`FsmSimulator._initialize_lut_ram_model` defaults to `next_state = IDLE`
with all numeric fields and flags zero, while `SequencerFSMSim.
load_lut_entry` defaults to `next_state = RST` with `repeat_count = 1` and
`data_length = 1` (flags zero, `next_address = 0`). -/
theorem c6_default_words {cfg : SimConfig} {addr rst : Nat} (s : SimState)
    (hnone : cfg.entries addr = none)
    (hr : lookupEnc cfg.stateEnc "RST" = some rst) :
    load_lut_entry cfg addr s =
      some { s with next_state := rst, repeat_count := 1, data_length := 1,
                    eof := 0, sof := 0, next_address := 0 } ∧
    (∀ (aw : Nat) (entries : List (Nat × RamEntry)) (a : Nat),
      (∀ p ∈ entries, p.1 ≠ a) →
      initLutRam aw entries a = defaultRamEntry) := by
  refine ⟨?_, ?_⟩
  · unfold load_lut_entry
    rw [hnone]
    dsimp only
    rw [hr]
  · intro aw entries a h
    unfold initLutRam
    rw [lutRamStore_unsupplied aw entries _ a h]

/-- C6 (witness): the amended statement instantiated at the unsupplied
address 3 of `cfgA` and a one-entry table missing address 5. -/
theorem c6_default_words_witness :
    (cfgA.entries 3 = none ∧ lookupEnc cfgA.stateEnc "RST" = some 0) ∧
    (load_lut_entry cfgA 3 s0fix =
      some { s0fix with next_state := 0, repeat_count := 1, data_length := 1,
                        eof := 0, sof := 0, next_address := 0 } ∧
    (∀ (aw : Nat) (entries : List (Nat × RamEntry)) (a : Nat),
      (∀ p ∈ entries, p.1 ≠ a) →
      initLutRam aw entries a = defaultRamEntry)) :=
  ⟨⟨by decide, by decide⟩, c6_default_words s0fix (by decide) (by decide)⟩

/-! ## Claim C8 -/

/-- C8 (counterexample): `SequencerFSMSim.load_lut_entry` performs no
fallback for an unknown state name.  In `cfgE` entry 0 names the state
`"NOPE"`, absent from the table, and loading it fails (a `KeyError` in the
Python source) instead of defaulting. -/
theorem c8_unknown_state_load_fails_cex :
    load_lut_entry cfgE 0 s0fix = none := by
  decide

/-- C8 (amended): `FsmSimulator.write_lut_ram` does fall back: an in-range
store whose state name does not resolve is written with `next_state = IDLE`
(and a diagnostic), leaving every other address untouched — but
`SequencerFSMSim.load_lut_entry` raises instead of falling back. -/
theorem c8_write_lut_ram_fallback {states : List String} {aw : Nat}
    {ram : Nat → RamEntry} {address : Nat} {e : RamEntry}
    (ha : address < 2 ^ aw) (hn : e.next_state ∉ states) :
    write_lut_ram states aw ram address e address = { e with next_state := "IDLE" } ∧
    (∀ a, a ≠ address → write_lut_ram states aw ram address e a = ram a) := by
  constructor
  · simp [write_lut_ram, ha, hn]
  · intro a hne
    simp [write_lut_ram, ha, hn, hne]

/-- C8 (witness): storing `eBad` (state name `"NOPE"`) at address 1 of a
default-filled table with the shipped state list. -/
theorem c8_write_lut_ram_fallback_witness :
    ((1 : Nat) < 2 ^ 2 ∧ eBad.next_state ∉ statesFix) ∧
    (write_lut_ram statesFix 2 (fun _ => defaultRamEntry) 1 eBad 1 =
        { eBad with next_state := "IDLE" } ∧
     (∀ a, a ≠ 1 →
        write_lut_ram statesFix 2 (fun _ => defaultRamEntry) 1 eBad a =
          (fun _ => defaultRamEntry) a)) :=
  ⟨⟨by decide, by decide⟩, c8_write_lut_ram_fallback (by decide) (by decide)⟩

/-! ## Claim C9 -/

/-- C9 (counterexample): the entry dictionary built by
`SequencerFSMSim.__init__` has no range check: with `address_width = 8`
(depth 256) an entry at address 300 is silently stored and readable. -/
theorem c9_oor_entry_stored_cex :
    simEntriesDict [(300, rawFix)] 300 = some rawFix := by
  decide

/-- Helper: storing skips exactly the out-of-range pairs, so the result
agrees with storing the in-range sublist. -/
theorem lutRamStore_filter (aw : Nat) :
    ∀ (l : List (Nat × RamEntry)) (ram : Nat → RamEntry) (a : Nat),
      lutRamStore aw ram l a =
        lutRamStore aw ram (l.filter fun p => p.1 < 2 ^ aw) a := by
  intro l
  induction l with
  | nil => intro ram a; rfl
  | cons p t ih =>
    intro ram a
    obtain ⟨addr, e⟩ := p
    by_cases hw : addr < 2 ^ aw
    · have hf : List.filter (fun p => decide (p.1 < 2 ^ aw)) ((addr, e) :: t) =
          (addr, e) :: t.filter (fun p => decide (p.1 < 2 ^ aw)) := by
        simp [List.filter_cons, hw]
      rw [hf, lutRamStore_cons, lutRamStore_cons]
      exact ih _ a
    · have hf : List.filter (fun p => decide (p.1 < 2 ^ aw)) ((addr, e) :: t) =
          t.filter (fun p => decide (p.1 < 2 ^ aw)) := by
        simp [List.filter_cons, hw]
      rw [hf, lutRamStore_cons, if_neg hw]
      exact ih ram a

/-- C9 (amended): in `FsmSimulator._initialize_lut_ram_model` an
out-of-range load address is rejected (with a diagnostic) and never stored:
the constructed table is pointwise the table built from the in-range
entries alone, so the depth is untouched and every in-range entry holds
exactly what it would hold without the out-of-range one — but the
`SequencerFSMSim.__init__` dictionary stores out-of-range addresses
unchecked. -/
theorem c9_oor_rejected (aw : Nat) (entries : List (Nat × RamEntry)) (a : Nat) :
    initLutRam aw entries a =
      initLutRam aw (entries.filter fun p => p.1 < 2 ^ aw) a := by
  unfold initLutRam
  exact lutRamStore_filter aw entries _ a

/-! ## Claim C7 -/

/-- Helper: any nonempty chain of steps taken entirely with `reset_i`
asserted collapses to `reset()`, regardless of the start state and of the
exit inputs supplied along the way. -/
theorem simRun_reset_chain (cfg : SimConfig) :
    ∀ (l : List Bool) (s : SimState) (e : Bool),
      simRun cfg ((true, e) :: l.map fun x => (true, x)) s = simReset cfg := by
  intro l
  induction l with
  | nil =>
    intro s e
    show (simStep cfg true e s).bind _ = _
    rw [simStep_reset]
    cases simReset cfg <;> rfl
  | cons b t ih =>
    intro s e
    show (simStep cfg true e s).bind _ = _
    rw [simStep_reset]
    cases hR : simReset cfg with
    | none => rfl
    | some s0 =>
      show simRun cfg ((true, b) :: t.map fun x => (true, x)) s0 = some s0
      rw [ih s0 b, hR]

/-- C7 (counterexample): the post-reset state does not have its timers
cleared: with `cfgD` (entry 0 has `data_length = 5`) a step with
`reset_asserted` leaves `data_length_timer = 5` (and `repeat_count`
registers loaded from entry 0), not zero. -/
theorem c7_timer_not_cleared_cex :
    (simStep cfgD true false s0fix).map SimState.data_length_timer = some 5 := by
  decide

/-- C7 (amended): reset is idempotent — stepping any number `k ≥ 1` of
consecutive times with `reset_asserted` (any exit inputs) yields exactly the
state of a single reset step — and that state has `current_state = RST`,
`lut_addr = 0`, the exit latch and `sequence_done` clear, but its
`data_length_timer` and `active_repeat_count` are initialized from microcode
entry 0 (or the 1/1 defaults), not cleared to zero. -/
theorem c7_reset_idempotent :
    (∀ (cfg : SimConfig) (s : SimState) (e e' : Bool) (l : List Bool),
      simRun cfg ((true, e) :: l.map fun x => (true, x)) s = simStep cfg true e' s) ∧
    (∀ (cfg : SimConfig) (s1 : SimState), simReset cfg = some s1 →
      lookupEnc cfg.stateEnc "RST" = some s1.current_state ∧
      s1.lut_addr = 0 ∧ s1.exit_signal_latched = false ∧
      s1.sequence_done = false ∧ s1.cycle = 0 ∧
      s1.data_length_timer = s1.data_length ∧
      s1.active_repeat_count = s1.repeat_count) := by
  constructor
  · intro cfg s e e' l
    rw [simRun_reset_chain cfg l s e, simStep_reset]
  · intro cfg s1 h
    unfold simReset at h
    cases hR : lookupEnc cfg.stateEnc "RST" with
    | none => rw [hR] at h; simp at h
    | some rst =>
      rw [hR] at h
      dsimp only at h
      cases hL : load_lut_entry cfg 0 _ with
      | none => rw [hL] at h; simp at h
      | some s2 =>
        rw [hL] at h
        obtain ⟨p1, p2, p3, p4, p5, p6, p7, p8⟩ := load_preserves hL
        cases h
        exact ⟨congrArg some (p1.trans rfl).symm, p2, rfl, p7, p8, rfl, rfl⟩

/-- C7 (witness): three reset steps over `cfgD` equal one, and the single
reset state satisfies the characterization. -/
theorem c7_reset_idempotent_witness :
    simRun cfgD ((true, false) :: [true, false].map fun x => (true, x)) s0fix =
      simStep cfgD true true s0fix ∧
    (simReset cfgD = some sResetD ∧
      lookupEnc cfgD.stateEnc "RST" = some sResetD.current_state ∧
      sResetD.lut_addr = 0 ∧ sResetD.exit_signal_latched = false ∧
      sResetD.sequence_done = false ∧ sResetD.cycle = 0 ∧
      sResetD.data_length_timer = sResetD.data_length ∧
      sResetD.active_repeat_count = sResetD.repeat_count) :=
  ⟨c7_reset_idempotent.1 cfgD s0fix false true [true, false],
   by decide, c7_reset_idempotent.2 cfgD sResetD (by decide)⟩

/-! ## Claim C4 (amended statement, on the structural engine) -/

/-- C4 (amended): the iff between completion predicate and the transition to
Idle holds of the *structural* engine, not of `SequencerFSMSim` (which has no
predicate and auto-advances, see the counterexample).  For every `svStep`
taken in a command state with `data_length_timer = 0`: the engine moves to
`IDLE` iff the state's completion signal is asserted, `lut_addr_reg` is left
pointing at the entry that produced the command, and with the signal low the
whole register file is unchanged. -/
theorem c4_sv_idle_iff_predicate {cfg : SVConfig} {s : SVState} {comp : Nat → Bool}
    {e : Bool}
    (hcmd : s.current_state ∈ cfg.cmdStates)
    (hnr : s.current_state ≠ cfg.rstEnc) (hni : s.current_state ≠ cfg.idleEnc)
    (ht : s.data_length_timer = 0) :
    ((svStep cfg false e comp s).current_state = cfg.idleEnc ↔
      comp s.current_state = true) ∧
    (svStep cfg false e comp s).lut_addr = s.lut_addr ∧
    (comp s.current_state = false → svStep cfg false e comp s = s) := by
  unfold svStep
  simp only [if_neg (Bool.false_ne_true), Bool.false_eq_true, if_false]
  rw [if_neg hnr, if_neg hni, if_pos hcmd, ht, if_neg (lt_irrefl 0)]
  cases hc : comp s.current_state with
  | false =>
    simp only [Bool.false_eq_true, if_false]
    exact ⟨iff_of_false hni not_false, trivial, fun _ => trivial⟩
  | true =>
    rw [if_pos rfl]
    exact ⟨iff_of_true rfl rfl, rfl, fun h => nomatch h⟩

/-- C4 (witness): the amended statement at `cfgSV`, command state 2 with the
timer expired and all completion signals asserted. -/
theorem c4_sv_idle_iff_predicate_witness :
    (svCmdFix.current_state ∈ cfgSV.cmdStates ∧
     svCmdFix.current_state ≠ cfgSV.rstEnc ∧
     svCmdFix.current_state ≠ cfgSV.idleEnc ∧
     svCmdFix.data_length_timer = 0) ∧
    (((svStep cfgSV false false compT svCmdFix).current_state = cfgSV.idleEnc ↔
        compT svCmdFix.current_state = true) ∧
     (svStep cfgSV false false compT svCmdFix).lut_addr = svCmdFix.lut_addr ∧
     (compT svCmdFix.current_state = false →
        svStep cfgSV false false compT svCmdFix = svCmdFix)) :=
  ⟨⟨by decide, by decide, by decide, by decide⟩,
   c4_sv_idle_iff_predicate (by decide) (by decide) (by decide) (by decide)⟩

/-! ## Claim C2 (amended statement, on the structural engine) -/

/-- C2 (amended): on the structural engine, an Idle resolution with no
active repeats, no taken infinite-exit branch, and the current entry's `eof`
set resets `lut_addr` to 0 and loads entry 0's state, timer and repeat
count; `sequence_done_o` is asserted for that cycle iff additionally the
entry's stored `repeat_count` is 0 (a finite-repeat `eof` entry wraps
*silently*).  Moreover, over the three-entry table `cfgSV2` whose only `eof`
entry is the last and has `repeat_count = 0`, two full passes assert
`sequence_done` exactly twice and `lut_addr` never exceeds the configured
span. -/
theorem c2_sv_eof_wrap :
    (∀ (cfg : SVConfig) (s : SVState) (comp : Nat → Bool) (e : Bool),
      s.current_state = cfg.idleEnc → s.current_state ≠ cfg.rstEnc →
      s.active_repeat_count = 0 →
      ¬((cfg.ram s.lut_addr).repeat_count = 0 ∧ e = true) →
      (cfg.ram s.lut_addr).eof = true →
      svStep cfg false e comp s =
        { current_state := (cfg.ram 0).next_state, lut_addr := 0,
          data_length_timer := (cfg.ram 0).data_length,
          active_repeat_count := (cfg.ram 0).repeat_count } ∧
      (svDone cfg s = true ↔ (cfg.ram s.lut_addr).repeat_count = 0)) ∧
    (((List.range 31).filter fun k =>
        svDone cfgSV2 (svIter cfgSV2 compT k sv0)).length = 2 ∧
     ∀ k ∈ List.range 31, (svIter cfgSV2 compT k sv0).lut_addr ≤ 2) := by
  constructor
  · intro cfg s comp e hcur hnr harc hnoexit heof
    constructor
    · unfold svStep
      simp only [if_neg (Bool.false_ne_true), Bool.false_eq_true, if_false]
      rw [if_neg hnr, if_pos hcur, harc, if_neg (lt_irrefl 0), if_neg hnoexit,
        if_pos heof]
    · simp [svDone, hcur, heof, harc]
  · exact ⟨by decide, by decide⟩

/-- C2 (witness): the amended per-step statement instantiated at the `eof`
entry of `cfgSV2` (address 2) with repeats exhausted and no exit. -/
theorem c2_sv_eof_wrap_witness :
    (svIdleFix.current_state = cfgSV2.idleEnc ∧
     svIdleFix.current_state ≠ cfgSV2.rstEnc ∧
     svIdleFix.active_repeat_count = 0 ∧
     ¬((cfgSV2.ram svIdleFix.lut_addr).repeat_count = 0 ∧ false = true) ∧
     (cfgSV2.ram svIdleFix.lut_addr).eof = true) ∧
    (svStep cfgSV2 false false compT svIdleFix =
        { current_state := (cfgSV2.ram 0).next_state, lut_addr := 0,
          data_length_timer := (cfgSV2.ram 0).data_length,
          active_repeat_count := (cfgSV2.ram 0).repeat_count } ∧
     (svDone cfgSV2 svIdleFix = true ↔
        (cfgSV2.ram svIdleFix.lut_addr).repeat_count = 0)) :=
  ⟨⟨by decide, by decide, by decide, by decide, by decide⟩,
   c2_sv_eof_wrap.1 cfgSV2 svIdleFix compT false (by decide) (by decide)
     (by decide) (by decide) (by decide)⟩


/-! ## Claim C3: codec helper lemmas and the amended round trip -/

theorem foldl_add_shift (l : List Nat) : ∀ a : Nat, l.foldl (· + ·) a = a + l.foldl (· + ·) 0 := by
  induction l with
  | nil => intro a; simp [List.foldl]
  | cons w t ih =>
    intro a
    simp only [List.foldl]
    rw [ih (a + w), ih (0 + w), Nat.zero_add, Nat.add_assoc]

theorem sumW_cons (w : Nat) (t : List Nat) : sumW (w :: t) = w + sumW t := by
  unfold sumW
  simp only [List.foldl]
  rw [Nat.zero_add, foldl_add_shift t w]

theorem sumW_eq_sum (l : List Nat) : sumW l = l.sum := by
  induction l with
  | nil => rfl
  | cons w t ih => rw [sumW_cons, List.sum_cons, ih]

theorem packFold_pos : ∀ (l : List (Nat × Nat)) (acc pos : Nat),
    (packFold l acc pos).2 = pos + sumW (l.map Prod.snd) := by
  intro l
  induction l with
  | nil => intro acc pos; simp [packFold, sumW, List.foldl]
  | cons p t ih =>
    intro acc pos
    obtain ⟨v, w⟩ := p
    simp only [packFold, List.map]
    rw [ih _ (pos + w), sumW_cons, Nat.add_assoc]

theorem packFold_or : ∀ (l : List (Nat × Nat)) (acc pos : Nat),
    (packFold l acc pos).1 = acc ||| (packFold l 0 pos).1 := by
  intro l
  induction l with
  | nil => intro acc pos; simp [packFold]
  | cons p t ih =>
    intro acc pos
    obtain ⟨v, w⟩ := p
    simp only [packFold]
    rw [ih (acc ||| v <<< pos) (pos + w), ih (0 ||| v <<< pos) (pos + w),
        Nat.zero_or, Nat.or_assoc]

theorem packFold_testBit_low : ∀ (l : List (Nat × Nat)) (pos i : Nat), i < pos →
    ((packFold l 0 pos).1).testBit i = false := by
  intro l
  induction l with
  | nil => intro pos i _; exact Nat.zero_testBit i
  | cons p t ih =>
    intro pos i hi
    obtain ⟨v, w⟩ := p
    simp only [packFold]
    rw [packFold_or t (0 ||| v <<< pos) (pos + w), Nat.zero_or, Nat.testBit_lor,
        ih (pos + w) i (Nat.lt_of_lt_of_le hi (Nat.le_add_right pos w)),
        Nat.testBit_shiftLeft]
    simp [Nat.not_le.mpr hi]

theorem packFold_lt : ∀ (l : List (Nat × Nat)) (pos : Nat),
    (∀ p ∈ l, p.1 < 2 ^ p.2) →
    (packFold l 0 pos).1 < 2 ^ (pos + sumW (l.map Prod.snd)) := by
  intro l
  induction l with
  | nil =>
    intro pos _
    simp only [packFold, List.map, sumW, List.foldl, Nat.add_zero]
    exact Nat.pow_pos (by norm_num)
  | cons p t ih =>
    intro pos h
    obtain ⟨v, w⟩ := p
    have hv : v < 2 ^ w := h (v, w) (List.mem_cons_self _ _)
    have ht : ∀ q ∈ t, q.1 < 2 ^ q.2 := fun q hq => h q (List.mem_cons_of_mem _ hq)
    simp only [packFold, List.map]
    rw [packFold_or t (0 ||| v <<< pos) (pos + w), Nat.zero_or, sumW_cons,
        ← Nat.add_assoc]
    apply Nat.or_lt_two_pow
    · rw [Nat.shiftLeft_eq]
      calc v * 2 ^ pos < 2 ^ w * 2 ^ pos :=
            mul_lt_mul_of_pos_right hv (Nat.pow_pos (by norm_num))
        _ = 2 ^ (pos + w) := by rw [← pow_add, Nat.add_comm]
        _ ≤ 2 ^ (pos + w + sumW (t.map Prod.snd)) :=
            Nat.pow_le_pow_right (by norm_num) (Nat.le_add_right _ _)
    · exact ih (pos + w) ht


theorem or_shiftLeft_shiftRight (A P T : Nat) (hP : P < 2 ^ T) :
    ((A <<< T) ||| P) >>> T = A := by
  apply Nat.eq_of_testBit_eq
  intro i
  rw [Nat.testBit_shiftRight, Nat.testBit_lor, Nat.testBit_shiftLeft,
      Nat.testBit_lt_two_pow
        (lt_of_lt_of_le hP (Nat.pow_le_pow_right (by norm_num) (Nat.le_add_right T i)))]
  simp [Nat.le_add_right, Nat.add_sub_cancel_left]

theorem unpackFold_packFold : ∀ (l : List (Nat × Nat)) (pos acc high : Nat),
    acc < 2 ^ pos → (∀ p ∈ l, p.1 < 2 ^ p.2) →
    unpackFold (l.map Prod.snd)
      (acc ||| (packFold l 0 pos).1 ||| (high <<< (pos + sumW (l.map Prod.snd)))) pos =
      l.map Prod.fst := by
  intro l
  induction l with
  | nil => intro pos acc high _ _; rfl
  | cons p t ih =>
    intro pos acc high hacc h
    obtain ⟨v, w⟩ := p
    have hv : v < 2 ^ w := h (v, w) (List.mem_cons_self _ _)
    have ht : ∀ q ∈ t, q.1 < 2 ^ q.2 := fun q hq => h q (List.mem_cons_of_mem _ hq)
    have hpack : (packFold ((v, w) :: t) 0 pos).1 =
        (v <<< pos) ||| (packFold t 0 (pos + w)).1 := by
      simp only [packFold]
      rw [packFold_or t (0 ||| v <<< pos) (pos + w), Nat.zero_or]
    have hsum : pos + sumW (((v, w) :: t).map Prod.snd) =
        pos + w + sumW (t.map Prod.snd) := by
      simp only [List.map]
      rw [sumW_cons, Nat.add_assoc]
    have hW : acc ||| (packFold ((v, w) :: t) 0 pos).1 |||
        (high <<< (pos + sumW (((v, w) :: t).map Prod.snd))) =
        (acc ||| v <<< pos) ||| (packFold t 0 (pos + w)).1 |||
          (high <<< (pos + w + sumW (t.map Prod.snd))) := by
      rw [hpack, hsum, ← Nat.or_assoc]
    have hacc' : acc ||| v <<< pos < 2 ^ (pos + w) := by
      apply Nat.or_lt_two_pow
      · exact lt_of_lt_of_le hacc (Nat.pow_le_pow_right (by norm_num) (Nat.le_add_right _ _))
      · rw [Nat.shiftLeft_eq]
        calc v * 2 ^ pos < 2 ^ w * 2 ^ pos :=
              mul_lt_mul_of_pos_right hv (Nat.pow_pos (by norm_num))
          _ = 2 ^ (pos + w) := by rw [← pow_add, Nat.add_comm]
    have hhead : ((acc ||| (packFold ((v, w) :: t) 0 pos).1 |||
        (high <<< (pos + sumW (((v, w) :: t).map Prod.snd)))) >>> pos) &&&
          ((1 <<< w) - 1) = v := by
      rw [hW, Nat.one_shiftLeft]
      apply Nat.eq_of_testBit_eq
      intro j
      rw [Nat.testBit_land, Nat.testBit_two_pow_sub_one, Nat.testBit_shiftRight]
      by_cases hj : j < w
      · have h1 : acc.testBit (pos + j) = false :=
          Nat.testBit_lt_two_pow
            (lt_of_lt_of_le hacc (Nat.pow_le_pow_right (by norm_num) (Nat.le_add_right _ _)))
        have h2 : ((packFold t 0 (pos + w)).1).testBit (pos + j) = false :=
          packFold_testBit_low t (pos + w) (pos + j) (by omega)
        have h3 : ¬ (pos + j ≥ pos + w + sumW (t.map Prod.snd)) := by omega
        rw [Nat.testBit_lor, Nat.testBit_lor, Nat.testBit_lor,
            Nat.testBit_shiftLeft v, Nat.testBit_shiftLeft high, h1, h2]
        simp [h3, hj, Nat.le_add_right, Nat.add_sub_cancel_left]
      · have hvj : v.testBit j = false :=
          Nat.testBit_lt_two_pow
            (lt_of_lt_of_le hv (Nat.pow_le_pow_right (by norm_num) (Nat.le_of_not_lt hj)))
        simp [hj, hvj]
    have htail := ih (pos + w) (acc ||| v <<< pos) high hacc' ht
    rw [← hW] at htail
    simp only [List.map] at hhead htail
    simp only [List.map, unpackFold]
    rw [hhead, htail]


theorem sumW_reverse_map (fields : List (Nat × Nat)) :
    sumW (fields.reverse.map Prod.snd) = sumW (fields.map Prod.snd) := by
  rw [sumW_eq_sum, sumW_eq_sum, List.map_reverse, List.sum_reverse]

/-- C3 (amended): the packer of `sim_fsm.py` (reversed-field-order fold, state
encoding in the most-significant bits) is inverse to the extraction that
walks the *same* reversed order — the `always_comb` slices the generated
SystemVerilog uses — not to the cited declaration-order unpack.  For every
field list with values within their declared widths, `unpack_rev` recovers
all fields from `pack_word`, and the state encoding is recovered from the
bits above the parameter fields. -/
theorem c3_pack_unpack_rev_roundtrip (fields : List (Nat × Nat)) (enc : Nat)
    (h : ∀ p ∈ fields, p.1 < 2 ^ p.2) :
    unpack_rev (fields.map Prod.snd) (pack_word enc fields) = fields.map Prod.fst ∧
    unpack_enc (fields.map Prod.snd) (pack_word enc fields) = enc := by
  have hrev : ∀ p ∈ fields.reverse, p.1 < 2 ^ p.2 :=
    fun q hq => h q (List.mem_reverse.mp hq)
  have hword : pack_word enc fields =
      0 ||| (packFold fields.reverse 0 0).1 |||
        (enc <<< (0 + sumW (fields.reverse.map Prod.snd))) := by
    unfold pack_word
    dsimp only
    rw [packFold_pos fields.reverse 0 0, Nat.zero_or]
    exact Nat.or_comm _ _
  constructor
  · unfold unpack_rev
    rw [show (fields.map Prod.snd).reverse = fields.reverse.map Prod.snd from
          (List.map_reverse _ _).symm,
        hword,
        unpackFold_packFold fields.reverse 0 0 enc (by simp) hrev,
        ← List.map_reverse, List.reverse_reverse]
  · unfold unpack_enc pack_word
    dsimp only
    have hT : (packFold fields.reverse 0 0).2 =
        (fields.map Prod.snd).foldl (· + ·) 0 := by
      rw [packFold_pos fields.reverse 0 0, Nat.zero_add, sumW_reverse_map]
      rfl
    rw [hT]
    apply or_shiftLeft_shiftRight
    have := packFold_lt fields.reverse 0 hrev
    rw [Nat.zero_add, sumW_reverse_map] at this
    exact this

/-- C3 (witness): the round trip at the shipped layout
`[repeat_count:8, data_length:16, eof:1, sof:1]`, `state_width = 3`,
with in-width values `5, 1024, 1, 1` and encoding 6. -/
theorem c3_pack_unpack_rev_roundtrip_witness :
    (∀ p ∈ [((5 : Nat), (8 : Nat)), (1024, 16), (1, 1), (1, 1)], p.1 < 2 ^ p.2) ∧
    (unpack_rev ([((5 : Nat), (8 : Nat)), (1024, 16), (1, 1), (1, 1)].map Prod.snd)
        (pack_word 6 [(5, 8), (1024, 16), (1, 1), (1, 1)]) =
      [((5 : Nat), (8 : Nat)), (1024, 16), (1, 1), (1, 1)].map Prod.fst ∧
     unpack_enc ([((5 : Nat), (8 : Nat)), (1024, 16), (1, 1), (1, 1)].map Prod.snd)
        (pack_word 6 [(5, 8), (1024, 16), (1, 1), (1, 1)]) = 6) :=
  ⟨by decide, c3_pack_unpack_rev_roundtrip [(5, 8), (1024, 16), (1, 1), (1, 1)] 6 (by decide)⟩

/-! ## Claim C10 -/

/-- Helper: with no `next_address` overrides, a successful load leaves
`lut_addr` alone and sets `next_address` to a masked (in-range) value. -/
theorem load_keeps_addr_bound {cfg : SimConfig} {addr : Nat} {s s' : SimState}
    (hno : ∀ a e, cfg.entries a = some e → e.next_address = none)
    (h : load_lut_entry cfg addr s = some s') :
    s'.next_address < 2 ^ cfg.addressWidth ∧ s'.lut_addr = s.lut_addr := by
  unfold load_lut_entry at h
  cases hE : cfg.entries addr with
  | none =>
    rw [hE] at h
    dsimp only at h
    cases hR : lookupEnc cfg.stateEnc "RST" with
    | none => rw [hR] at h; simp at h
    | some rst =>
      rw [hR] at h
      cases h
      exact ⟨Nat.pos_pow_of_pos _ (by norm_num), rfl⟩
  | some entry =>
    rw [hE] at h
    dsimp only at h
    cases hR : lookupEnc cfg.stateEnc entry.next_state with
    | none => rw [hR] at h; simp at h
    | some enc =>
      rw [hR] at h
      cases h
      refine ⟨?_, rfl⟩
      rw [hno addr entry hE]
      show (addr + 1) &&& (2 ^ cfg.addressWidth - 1) < 2 ^ cfg.addressWidth
      rw [and_two_pow_sub_one]
      exact Nat.mod_lt _ (Nat.pos_pow_of_pos _ (by norm_num))

/-- Helper: the reset state satisfies the address invariant. -/
theorem simReset_addr_inv {cfg : SimConfig} {s1 : SimState}
    (hno : ∀ a ent, cfg.entries a = some ent → ent.next_address = none)
    (h : simReset cfg = some s1) :
    s1.lut_addr < 2 ^ cfg.addressWidth ∧ s1.next_address < 2 ^ cfg.addressWidth := by
  unfold simReset at h
  cases hR : lookupEnc cfg.stateEnc "RST" with
  | none => rw [hR] at h; simp at h
  | some rst =>
    rw [hR] at h
    dsimp only at h
    cases hL : load_lut_entry cfg 0 _ with
    | none => rw [hL] at h; simp at h
    | some s2 =>
      rw [hL] at h
      cases h
      obtain ⟨hb, ha⟩ := load_keeps_addr_bound hno hL
      constructor
      · show s2.lut_addr < 2 ^ cfg.addressWidth
        rw [ha]
        exact Nat.pos_pow_of_pos _ (by norm_num)
      · exact hb

/-- Helper: one step of any kind preserves the address invariant. -/
theorem simStep_addr_inv {cfg : SimConfig} {s s' : SimState} {r e : Bool}
    (hno : ∀ a ent, cfg.entries a = some ent → ent.next_address = none)
    (h1 : s.lut_addr < 2 ^ cfg.addressWidth)
    (h2 : s.next_address < 2 ^ cfg.addressWidth)
    (h : simStep cfg r e s = some s') :
    s'.lut_addr < 2 ^ cfg.addressWidth ∧ s'.next_address < 2 ^ cfg.addressWidth := by
  cases r with
  | true =>
    rw [simStep_reset] at h
    exact simReset_addr_inv hno h
  | false =>
    unfold simStep at h
    simp only [if_neg (Bool.false_ne_true), Bool.false_eq_true, if_false] at h
    cases hR : lookupEnc cfg.stateEnc "RST" with
    | none => rw [hR] at h; simp at h
    | some rst =>
      rw [hR] at h
      dsimp only at h
      by_cases hcur : s.current_state = rst
      · rw [if_pos hcur] at h
        split at h
        · exact absurd h (by simp)
        · next s1 heq =>
          cases h
          obtain ⟨hb, _⟩ := load_keeps_addr_bound hno heq
          exact ⟨hb, hb⟩
      · rw [if_neg hcur] at h
        cases hI : lookupEnc cfg.stateEnc "IDLE" with
        | none => rw [hI] at h; simp at h
        | some idle =>
          rw [hI] at h
          dsimp only at h
          by_cases hid : s.current_state = idle
          · rw [if_neg (not_not_intro hid)] at h
            split at h
            all_goals split at h
            all_goals
              rw [Option.map_eq_some'] at h
              obtain ⟨s3, hL, hfs⟩ := h
              obtain ⟨hb, ha⟩ := load_keeps_addr_bound hno hL
              subst hfs
              refine ⟨?_, hb⟩
              show s3.lut_addr < 2 ^ cfg.addressWidth
              rw [ha]
              dsimp only
            all_goals
              first
              | (rw [and_two_pow_sub_one]
                 exact Nat.mod_lt _ (Nat.pos_pow_of_pos _ (by norm_num)))
              | exact h2
          · rw [if_pos hid] at h
            repeat' split at h
            all_goals
              cases h
              exact ⟨h1, h2⟩

/-- C10: over any table without explicit `next_address` overrides and any
input sequence, the engine's `lut_addr` (and the `next_address` register it
is loaded from) stays in `[0, 2^address_width)` after every step: every
address update is a reset to 0, a masked increment, or a copy of the masked
`next_address`. -/
theorem c10_lut_addr_in_range (cfg : SimConfig)
    (hno : ∀ a ent, cfg.entries a = some ent → ent.next_address = none) :
    ∀ (inputs : List (Bool × Bool)) (s0 s1 : SimState),
      simReset cfg = some s0 → simRun cfg inputs s0 = some s1 →
      s1.lut_addr < 2 ^ cfg.addressWidth ∧ s1.next_address < 2 ^ cfg.addressWidth := by
  have main : ∀ (l : List (Bool × Bool)) (t t' : SimState),
      t.lut_addr < 2 ^ cfg.addressWidth → t.next_address < 2 ^ cfg.addressWidth →
      simRun cfg l t = some t' →
      t'.lut_addr < 2 ^ cfg.addressWidth ∧ t'.next_address < 2 ^ cfg.addressWidth := by
    intro l
    induction l with
    | nil =>
      intro t t' ha hb h
      cases h
      exact ⟨ha, hb⟩
    | cons p rest ih =>
      intro t t' ha hb h
      obtain ⟨r, e⟩ := p
      rw [show simRun cfg ((r, e) :: rest) t = (simStep cfg r e t).bind (simRun cfg rest)
            from rfl] at h
      cases hS : simStep cfg r e t with
      | none => rw [hS] at h; simp at h
      | some t2 =>
        rw [hS] at h
        obtain ⟨hc, hd⟩ := simStep_addr_inv hno ha hb hS
        exact ih t2 t' hc hd h
  intro inputs s0 s1 h0 h
  obtain ⟨ha, hb⟩ := simReset_addr_inv hno h0
  exact main inputs s0 s1 ha hb h

/-- C10 (witness): the invariant instantiated on `cfgA` after reset and one
step. -/
theorem c10_lut_addr_in_range_witness :
    ((∀ a ent, cfgA.entries a = some ent → ent.next_address = none) ∧
     simReset cfgA = some sResetA ∧ simRun cfgA [(false, false)] sResetA =
       some { sResetA with current_state := 2, lut_addr := 1, cycle := 1 }) ∧
    (({ sResetA with current_state := 2, lut_addr := 1, cycle := 1 } : SimState).lut_addr <
        2 ^ cfgA.addressWidth ∧
     ({ sResetA with current_state := 2, lut_addr := 1, cycle := 1 } : SimState).next_address <
        2 ^ cfgA.addressWidth) :=
  ⟨⟨by
      intro a ent h
      unfold cfgA at h
      dsimp only at h
      repeat' split at h
      all_goals first
        | (cases h; rfl)
        | simp at h,
    by decide, by decide⟩,
   c10_lut_addr_in_range cfgA
    (by
      intro a ent h
      unfold cfgA at h
      dsimp only at h
      repeat' split at h
      all_goals first
        | (cases h; rfl)
        | simp at h)
    [(false, false)] sResetA _ (by decide) (by decide)⟩


/-! ## Claim C5 -/

/-- Helper: a command step with the timer at least 2 just decrements it. -/
theorem simStep_cmd_dec {cfg : SimConfig} {rst idle c a L na t m : Nat} {s : SimState}
    (hr : lookupEnc cfg.stateEnc "RST" = some rst)
    (hi : lookupEnc cfg.stateEnc "IDLE" = some idle)
    (hcr : c ≠ rst) (hci : c ≠ idle)
    (hs : InCmd c a L na (t + 2) m s) :
    ∃ s', simStep cfg false false s = some s' ∧ InCmd c a L na (t + 1) m s' := by
  obtain ⟨h1, h2, h3, h4, h5, h6, h7⟩ := hs
  unfold simStep
  simp only [if_neg (Bool.false_ne_true), Bool.false_eq_true, if_false]
  rw [hr]
  have hxr : ¬ (s.current_state = rst) := by rw [h1]; exact hcr
  simp only [hxr, if_false, if_neg hxr]
  rw [hi]
  dsimp only
  have hxi : s.current_state ≠ idle := by rw [h1]; exact hci
  rw [if_pos hxi, h6, if_pos (Nat.succ_pos _)]
  have : t + 2 - 1 = t + 1 := rfl
  rw [this, if_neg (Nat.succ_ne_zero t)]
  exact ⟨_, rfl, h1, h2, h3, h4, h5, rfl, h7⟩

/-- Helper: a command step with the timer expired and repeats left reloads
the timer from `data_length` and decrements `active_repeat_count`. -/
theorem simStep_cmd_reload {cfg : SimConfig} {rst idle c a L na t m : Nat} {s : SimState}
    (hr : lookupEnc cfg.stateEnc "RST" = some rst)
    (hi : lookupEnc cfg.stateEnc "IDLE" = some idle)
    (hcr : c ≠ rst) (hci : c ≠ idle)
    (ht : t ≤ 1) (hs : InCmd c a L na t (m + 1) s) :
    ∃ s', simStep cfg false false s = some s' ∧ InCmd c a L na L m s' := by
  obtain ⟨h1, h2, h3, h4, h5, h6, h7⟩ := hs
  unfold simStep
  simp only [if_neg (Bool.false_ne_true), Bool.false_eq_true, if_false]
  rw [hr]
  have hxr : ¬ (s.current_state = rst) := by rw [h1]; exact hcr
  simp only [hxr, if_false, if_neg hxr]
  rw [hi]
  dsimp only
  have hxi : s.current_state ≠ idle := by rw [h1]; exact hci
  rw [if_pos hxi, h6]
  have harc : 0 < s.active_repeat_count := by rw [h7]; exact Nat.succ_pos m
  interval_cases t
  · rw [if_neg (lt_irrefl 0), if_pos rfl, if_pos harc]
    exact ⟨_, rfl, h1, h2, h3, h4, h5, h3, by simp [h7]⟩
  · rw [if_pos Nat.one_pos]
    have : (1 : Nat) - 1 = 0 := rfl
    rw [this, if_pos rfl, if_pos harc]
    exact ⟨_, rfl, h1, h2, h3, h4, h5, h3, by simp [h7]⟩

/-- Helper: a command step with the timer expired and no repeats left moves
to `IDLE`, leaving `lut_addr` and the command registers alone. -/
theorem simStep_cmd_to_idle {cfg : SimConfig} {rst idle c a L na t : Nat} {s : SimState}
    (hr : lookupEnc cfg.stateEnc "RST" = some rst)
    (hi : lookupEnc cfg.stateEnc "IDLE" = some idle)
    (hcr : c ≠ rst) (hci : c ≠ idle)
    (ht : t ≤ 1) (hs : InCmd c a L na t 0 s) :
    ∃ s', simStep cfg false false s = some s' ∧ s'.current_state = idle ∧
      s'.lut_addr = a ∧ s'.eof = 0 ∧ s'.next_address = na ∧
      s'.exit_signal_latched = s.exit_signal_latched := by
  obtain ⟨h1, h2, h3, h4, h5, h6, h7⟩ := hs
  unfold simStep
  simp only [if_neg (Bool.false_ne_true), Bool.false_eq_true, if_false]
  rw [hr]
  have hxr : ¬ (s.current_state = rst) := by rw [h1]; exact hcr
  simp only [hxr, if_false, if_neg hxr]
  rw [hi]
  dsimp only
  have hxi : s.current_state ≠ idle := by rw [h1]; exact hci
  rw [if_pos hxi, h6, h7]
  interval_cases t
  · rw [if_neg (lt_irrefl 0), if_pos rfl, if_neg (lt_irrefl 0)]
    exact ⟨_, rfl, rfl, h2, h4, h5, rfl⟩
  · rw [if_pos Nat.one_pos]
    have : (1 : Nat) - 1 = 0 := rfl
    rw [this, if_pos rfl, if_neg (lt_irrefl 0)]
    exact ⟨_, rfl, rfl, h2, h4, h5, rfl⟩

/-- Helper: iteration splits across sums of step counts. -/
theorem simIter_add (cfg : SimConfig) : ∀ (j k : Nat) (s : SimState),
    simIter cfg (j + k) s = (simIter cfg j s).bind (simIter cfg k) := by
  intro j
  induction j with
  | zero =>
    intro k s
    rw [Nat.zero_add]
    rfl
  | succ j ih =>
    intro k s
    rw [Nat.succ_add]
    show (simStep cfg false false s).bind (simIter cfg (j + k)) =
      ((simStep cfg false false s).bind (simIter cfg j)).bind (simIter cfg k)
    cases hS : simStep cfg false false s with
    | none => rfl
    | some s1 =>
      show simIter cfg (j + k) s1 = (simIter cfg j s1).bind (simIter cfg k)
      exact ih k s1

/-- Helper: from timer `t + 1`, each of the next `t` steps just counts the
timer down, staying in the command state at the same address. -/
theorem cmd_countdown {cfg : SimConfig} {rst idle c a L na : Nat}
    (hr : lookupEnc cfg.stateEnc "RST" = some rst)
    (hi : lookupEnc cfg.stateEnc "IDLE" = some idle)
    (hcr : c ≠ rst) (hci : c ≠ idle) :
    ∀ (t m : Nat) (s : SimState), InCmd c a L na (t + 1) m s →
      ∀ k, k ≤ t → ∃ sk, simIter cfg k s = some sk ∧ InCmd c a L na (t + 1 - k) m sk := by
  intro t
  induction t with
  | zero =>
    intro m s hs k hk
    interval_cases k
    exact ⟨s, rfl, hs⟩
  | succ t ih =>
    intro m s hs k hk
    cases k with
    | zero => exact ⟨s, rfl, hs⟩
    | succ j =>
      obtain ⟨s1, hstep, hs1⟩ := simStep_cmd_dec hr hi hcr hci hs
      obtain ⟨sk, hiter, hsk⟩ := ih m s1 hs1 j (Nat.le_of_succ_le_succ hk)
      refine ⟨sk, ?_, ?_⟩
      · show (simStep cfg false false s).bind (simIter cfg j) = some sk
        rw [hstep]
        exact hiter
      · have he : t + 1 + 1 - (j + 1) = t + 1 - j := Nat.succ_sub_succ _ _
        rw [he]
        exact hsk

/-- Helper: from a completion-check state (timer at most 1) with `m`
repeats left, exactly `m * max L 1 + 1` further steps stay in the command
at the same address and then land in `IDLE`. -/
theorem cmd_phase_check {cfg : SimConfig} {rst idle c a L na : Nat}
    (hr : lookupEnc cfg.stateEnc "RST" = some rst)
    (hi : lookupEnc cfg.stateEnc "IDLE" = some idle)
    (hcr : c ≠ rst) (hci : c ≠ idle) :
    ∀ (m t : Nat) (s : SimState), t ≤ 1 → InCmd c a L na t m s →
      (∀ k, k < m * max L 1 + 1 → ∃ sk, simIter cfg k s = some sk ∧
         sk.current_state = c ∧ sk.lut_addr = a) ∧
      (∃ sE, simIter cfg (m * max L 1 + 1) s = some sE ∧
         sE.current_state = idle ∧ sE.lut_addr = a ∧ sE.eof = 0 ∧
         sE.next_address = na) := by
  intro m
  induction m with
  | zero =>
    intro t s ht hs
    constructor
    · intro k hk
      rw [Nat.zero_mul, Nat.zero_add] at hk
      interval_cases k
      exact ⟨s, rfl, hs.1, hs.2.1⟩
    · obtain ⟨s', hstep, hcur, haddr, heof, hna, _⟩ :=
        simStep_cmd_to_idle hr hi hcr hci ht hs
      refine ⟨s', ?_, hcur, haddr, heof, hna⟩
      rw [Nat.zero_mul, Nat.zero_add]
      show (simStep cfg false false s).bind (simIter cfg 0) = some s'
      rw [hstep]
      rfl
  | succ m ihm =>
    intro t s ht hs
    obtain ⟨s1, hstep, hs1⟩ := simStep_cmd_reload hr hi hcr hci ht hs
    have hfirst : simIter cfg 1 s = some s1 := by
      show (simStep cfg false false s).bind (simIter cfg 0) = some s1
      rw [hstep]
      rfl
    rcases Nat.eq_zero_or_pos L with hL | hL
    · subst hL
      obtain ⟨ha2, hb2⟩ := ihm 0 s1 (by norm_num) hs1
      constructor
      · intro k hk
        cases k with
        | zero => exact ⟨s, rfl, hs.1, hs.2.1⟩
        | succ j =>
          have hj : j < m * max 0 1 + 1 := by
            have hmx : max 0 1 = 1 := rfl
            rw [hmx] at hk ⊢
            omega
          obtain ⟨sk, hiter, hc1, hc2⟩ := ha2 j hj
          refine ⟨sk, ?_, hc1, hc2⟩
          show (simStep cfg false false s).bind (simIter cfg j) = some sk
          rw [hstep]
          exact hiter
      · obtain ⟨sE, hiterE, hE1, hE2, hE3, hE4⟩ := hb2
        refine ⟨sE, ?_, hE1, hE2, hE3, hE4⟩
        have harith : (m + 1) * max 0 1 + 1 = (m * max 0 1 + 1) + 1 := by
          have hmx : max 0 1 = 1 := rfl
          rw [hmx]
          omega
        rw [harith]
        show (simStep cfg false false s).bind (simIter cfg (m * max 0 1 + 1)) = some sE
        rw [hstep]
        exact hiterE
    · have hM : max L 1 = L := Nat.max_eq_left hL
      have hL1 : L - 1 + 1 = L := Nat.succ_pred_eq_of_pos hL
      have hs1' : InCmd c a L na (L - 1 + 1) m s1 := by rw [hL1]; exact hs1
      have hcd := cmd_countdown hr hi hcr hci (L - 1) m s1 hs1'
      obtain ⟨s2, hiter2, hs2⟩ := hcd (L - 1) (Nat.le_refl _)
      have hs2' : InCmd c a L na 1 m s2 := by
        have he : L - 1 + 1 - (L - 1) = 1 := by omega
        rw [he] at hs2
        exact hs2
      have hsecond : simIter cfg (1 + (L - 1)) s = some s2 := by
        rw [simIter_add cfg 1 (L - 1) s, hfirst]
        exact hiter2
      obtain ⟨ha2, hb2⟩ := ihm 1 s2 (Nat.le_refl 1) hs2'
      have hmul : (m + 1) * L = m * L + L := by ring
      constructor
      · intro k hk
        rw [hM] at hk
        cases k with
        | zero => exact ⟨s, rfl, hs.1, hs.2.1⟩
        | succ j =>
          by_cases hj : j ≤ L - 1
          · obtain ⟨sk, hiter, hsk⟩ := hcd j hj
            refine ⟨sk, ?_, hsk.1, hsk.2.1⟩
            show (simStep cfg false false s).bind (simIter cfg j) = some sk
            rw [hstep]
            exact hiter
          · have hj2 : j + 1 - (1 + (L - 1)) < m * max L 1 + 1 := by
              rw [hM]
              omega
            obtain ⟨sk, hiter, hc1, hc2⟩ := ha2 (j + 1 - (1 + (L - 1))) hj2
            refine ⟨sk, ?_, hc1, hc2⟩
            have hdecomp : j + 1 = (1 + (L - 1)) + (j + 1 - (1 + (L - 1))) := by omega
            rw [hdecomp, simIter_add cfg (1 + (L - 1)) _ s, hsecond]
            exact hiter
      · obtain ⟨sE, hiterE, hE1, hE2, hE3, hE4⟩ := hb2
        refine ⟨sE, ?_, hE1, hE2, hE3, hE4⟩
        have hdecomp : (m + 1) * max L 1 + 1 = (1 + (L - 1)) + (m * max L 1 + 1) := by
          rw [hM]
          omega
        rw [hdecomp, simIter_add cfg (1 + (L - 1)) _ s, hsecond]
        exact hiterE

/-- C5: an entry loaded with `repeat_count = N` and `data_length = L` is
executed exactly `N + 1` times before the engine advances: from the freshly
loaded register file the engine spends exactly `(N + 1) * max L 1`
consecutive cycles in the command state (`N + 1` executions of `max L 1`
cycles each) with `lut_addr` pinned at the entry's address, lands in `IDLE`
still at that address, and only the following Idle resolution moves
`lut_addr` to the next address. -/
theorem c5_repeat_exactness {cfg : SimConfig} {rst idle c a L na N : Nat} {s : SimState}
    (hr : lookupEnc cfg.stateEnc "RST" = some rst)
    (hi : lookupEnc cfg.stateEnc "IDLE" = some idle)
    (hcr : c ≠ rst) (hci : c ≠ idle) (hir : idle ≠ rst)
    (hs : InCmd c a L na L N s)
    (hload : loadResolves cfg na = true) :
    (∀ k, k < (N + 1) * max L 1 → ∃ sk, simIter cfg k s = some sk ∧
       sk.current_state = c ∧ sk.lut_addr = a) ∧
    (∃ sE s', simIter cfg ((N + 1) * max L 1) s = some sE ∧
       sE.current_state = idle ∧ sE.lut_addr = a ∧
       simStep cfg false false sE = some s' ∧ s'.lut_addr = na ∧
       s'.sequence_done = false) := by
  have main :
      (∀ k, k < (N + 1) * max L 1 → ∃ sk, simIter cfg k s = some sk ∧
         sk.current_state = c ∧ sk.lut_addr = a) ∧
      (∃ sE, simIter cfg ((N + 1) * max L 1) s = some sE ∧
         sE.current_state = idle ∧ sE.lut_addr = a ∧ sE.eof = 0 ∧
         sE.next_address = na) := by
    rcases Nat.eq_zero_or_pos L with hL | hL
    · subst hL
      have hmx : max 0 1 = 1 := rfl
      have harith : (N + 1) * max 0 1 = N * max 0 1 + 1 := by
        rw [hmx]
        omega
      obtain ⟨ha2, hb2⟩ := cmd_phase_check hr hi hcr hci N 0 s (by norm_num) hs
      rw [harith]
      exact ⟨ha2, hb2⟩
    · have hM : max L 1 = L := Nat.max_eq_left hL
      have hL1 : L - 1 + 1 = L := Nat.succ_pred_eq_of_pos hL
      have hs' : InCmd c a L na (L - 1 + 1) N s := by rw [hL1]; exact hs
      have hcd := cmd_countdown hr hi hcr hci (L - 1) N s hs'
      obtain ⟨s2, hiter2, hs2⟩ := hcd (L - 1) (Nat.le_refl _)
      have hs2' : InCmd c a L na 1 N s2 := by
        have he : L - 1 + 1 - (L - 1) = 1 := by omega
        rw [he] at hs2
        exact hs2
      obtain ⟨ha2, hb2⟩ := cmd_phase_check hr hi hcr hci N 1 s2 (Nat.le_refl 1) hs2'
      have hmul : (N + 1) * L = N * L + L := by ring
      constructor
      · intro k hk
        rw [hM] at hk
        by_cases hj : k ≤ L - 1
        · obtain ⟨sk, hiter, hsk⟩ := hcd k hj
          exact ⟨sk, hiter, hsk.1, hsk.2.1⟩
        · have hj2 : k - (L - 1) < N * max L 1 + 1 := by
            rw [hM]
            omega
          obtain ⟨sk, hiter, hc1, hc2⟩ := ha2 (k - (L - 1)) hj2
          refine ⟨sk, ?_, hc1, hc2⟩
          have hdecomp : k = (L - 1) + (k - (L - 1)) := by omega
          rw [hdecomp, simIter_add cfg (L - 1) _ s, hiter2]
          exact hiter
      · obtain ⟨sE, hiterE, hE1, hE2, hE3, hE4⟩ := hb2
        refine ⟨sE, ?_, hE1, hE2, hE3, hE4⟩
        have hdecomp : (N + 1) * max L 1 = (L - 1) + (N * max L 1 + 1) := by
          rw [hM]
          omega
        rw [hdecomp, simIter_add cfg (L - 1) _ s, hiter2]
        exact hiterE
  obtain ⟨ha2, hb2⟩ := main
  obtain ⟨sE, hiterE, hE1, hE2, hE3, hE4⟩ := hb2
  refine ⟨ha2, sE, ?_⟩
  have hload' : loadResolves cfg sE.next_address = true := by rw [hE4]; exact hload
  obtain ⟨s', hstep', hl1, hl2, _, _, _⟩ :=
    simStep_idle_normal hr hi hE1 hir (Or.inl (by simp [hE3])) hload'
  refine ⟨s', hiterE, hE1, hE2, hstep', ?_, hl2⟩
  rw [hl1, hE4]

/-- C5 (witness): `N = 2`, `L = 1` over `cfgA`: three executions (three
cycles), then Idle, then the advance to address 1. -/
theorem c5_repeat_exactness_witness :
    (lookupEnc cfgA.stateEnc "RST" = some 0 ∧ lookupEnc cfgA.stateEnc "IDLE" = some 1 ∧
     (2 : Nat) ≠ 0 ∧ (2 : Nat) ≠ 1 ∧ (1 : Nat) ≠ 0 ∧
     InCmd 2 0 1 1 1 2 sCmdA ∧ loadResolves cfgA 1 = true) ∧
    ((∀ k, k < (2 + 1) * max 1 1 → ∃ sk, simIter cfgA k sCmdA = some sk ∧
        sk.current_state = 2 ∧ sk.lut_addr = 0) ∧
     (∃ sE s', simIter cfgA ((2 + 1) * max 1 1) sCmdA = some sE ∧
        sE.current_state = 1 ∧ sE.lut_addr = 0 ∧
        simStep cfgA false false sE = some s' ∧ s'.lut_addr = 1 ∧
        s'.sequence_done = false)) :=
  ⟨⟨by decide, by decide, by decide, by decide, by decide,
    ⟨rfl, rfl, rfl, rfl, rfl, rfl, rfl⟩, by decide⟩,
   @c5_repeat_exactness cfgA 0 1 2 0 1 1 2 sCmdA (by decide) (by decide) (by decide)
     (by decide) (by decide) ⟨rfl, rfl, rfl, rfl, rfl, rfl, rfl⟩ (by decide)⟩


end FsmAuto
